import Mathlib

/-!
Verification of the FastPosteriorCache specification for the
LOVE fast-variance / fast-sampling notebook repository.

The repository ships only the example notebook
`Simple_GP_Regression_With_LOVE_Fast_Variances_and_Sampling.ipynb`; the
LOVE cache mechanism itself lives in the library outside the shipped
sources, so the component is modelled from the specification text
(section 4.1 FastPosteriorCache of the spec).  The notebook's own
`GPRegressionModel.forward` feature rescaling is embedded directly from
the notebook source.
-/

namespace FastPosteriorCache

/-- Modelled from the spec: the error vocabulary of section 7
(`NumericalInstabilityError`, `StaleCacheError`,
`DimensionMismatchError`); the library implementation is not under the
shipped sources. -/
inductive Error where
  | numericalInstability
  | staleCache
  | dimensionMismatch
deriving DecidableEq, Repr

/-- Modelled from the spec: a TrainingSystem is an n-by-n symmetric
positive semidefinite training covariance together with a solved
residual vector, immutable once training concludes (spec section 3).
The covariance is represented by its spectrum `eigvals` (the nonnegative
eigenvalues a Lanczos-type iteration captures in order), the solved
residual by the scalar summary `residual`, the feature dimensionality by
`dim`, and the orthogonality loss measured during the iterative
decomposition by `orthLoss` (the decomposition algorithm itself is left
open by the spec, section 9). -/
structure TrainingSystem where
  eigvals : List ℚ
  eigvals_nonneg : ∀ x ∈ eigvals, 0 ≤ x
  residual : ℚ
  dim : ℕ
  orthLoss : ℚ

/-- Modelled from the spec: a rank-k matrix factor whose outer product
approximates the TrainingSystem's inverse action (spec section 3); it is
represented by the rank and the leading spectral components the factor
captures. -/
structure RootDecomposition where
  rank : ℕ
  kept : List ℚ
deriving DecidableEq, Repr

/-- Modelled from the spec: the tolerance beyond which lost
orthogonality makes `build` fail (spec section 4.1). -/
def tolerance : ℚ := 1 / 1000000

/-- Modelled from the spec: `build(trainingSystem, k)` computes a rank-k
approximate decomposition via an iterative process, failing with
`NumericalInstabilityError` if the iteration loses orthogonality beyond
tolerance (spec section 4.1); the iteration captures the leading k
spectral components. -/
def build (ts : TrainingSystem) (k : ℕ) : Except Error RootDecomposition :=
  if tolerance < ts.orthLoss then .error .numericalInstability
  else .ok ⟨k, ts.eigvals.take k⟩

/-- Modelled from the spec: a QueryBatch is a set of m query locations
of dimensionality `dim`; `weight` summarises the cross-covariance
between training and query locations (spec sections 3 and 6). -/
structure QueryBatch where
  m : ℕ
  dim : ℕ
  weight : ℚ
deriving DecidableEq, Repr

/-- Modelled from the spec: the exact predictive covariance summary for
a query batch, obtained from the full spectrum of the training system
scaled by the query's cross-covariance. -/
def exactCovar (ts : TrainingSystem) (qb : QueryBatch) : ℚ :=
  ts.eigvals.sum * qb.weight

/-- Modelled from the spec: the cached-approximate predictive covariance
summary computed purely from the cached low-rank terms and the query's
cross-covariance (spec section 4.1, `predictVariance`). -/
def approxCovar (r : RootDecomposition) (qb : QueryBatch) : ℚ :=
  r.kept.sum * qb.weight

/-- Modelled from the spec: the spectral tail not captured by a rank-k
decomposition. -/
def tailSum (ts : TrainingSystem) (k : ℕ) : ℚ :=
  (ts.eigvals.drop k).sum

/-- Modelled from the spec: the mean absolute error between the
cached-approximate covariance produced by a rank-k decomposition and the
exact covariance, over a fixed query batch (spec section 8, property 1). -/
def maeError (ts : TrainingSystem) (qb : QueryBatch) (k : ℕ) : ℚ :=
  |exactCovar ts qb - approxCovar ⟨k, ts.eigvals.take k⟩ qb|

theorem sum_nonneg_of_forall {l : List ℚ} (h : ∀ x ∈ l, 0 ≤ x) : 0 ≤ l.sum := by
  induction l with
  | nil => simp
  | cons a as ih =>
      simp only [List.sum_cons]
      have ha : 0 ≤ a := h a (by simp)
      have has : 0 ≤ as.sum := ih (fun x hx => h x (by simp [hx]))
      linarith

theorem tailSum_nonneg (ts : TrainingSystem) (k : ℕ) : 0 ≤ tailSum ts k := by
  apply sum_nonneg_of_forall
  intro x hx
  exact ts.eigvals_nonneg x (List.mem_of_mem_drop hx)

theorem tailSum_antitone (ts : TrainingSystem) {k j : ℕ} (h : k ≤ j) :
    tailSum ts j ≤ tailSum ts k := by
  unfold tailSum
  have hdrop : ts.eigvals.drop j = (ts.eigvals.drop k).drop (j - k) := by
    rw [List.drop_drop]
    congr 1
    omega
  rw [hdrop]
  have hsplit := List.sum_take_add_sum_drop (ts.eigvals.drop k) (j - k)
  have htake : 0 ≤ ((ts.eigvals.drop k).take (j - k)).sum := by
    apply sum_nonneg_of_forall
    intro x hx
    exact ts.eigvals_nonneg x (List.mem_of_mem_drop (List.mem_of_mem_take hx))
  linarith

theorem maeError_eq_tail (ts : TrainingSystem) (qb : QueryBatch) (k : ℕ) :
    maeError ts qb k = tailSum ts k * |qb.weight| := by
  unfold maeError exactCovar approxCovar tailSum
  have hsplit := List.sum_take_add_sum_drop ts.eigvals k
  have h1 : ts.eigvals.sum * qb.weight - (ts.eigvals.take k).sum * qb.weight
      = (ts.eigvals.drop k).sum * qb.weight := by rw [← hsplit]; ring
  rw [h1, abs_mul]
  have h2 : 0 ≤ (ts.eigvals.drop k).sum := tailSum_nonneg ts k
  rw [abs_of_nonneg h2]

/-- Modelled from the spec: the lifecycle of the PredictiveCache.  A
cache is `cold` before any build (the first query lazily builds, spec
sections 8.4 and 9), `stale` after an explicit `invalidate` that was not
followed by a rebuild (queries then fail with `StaleCacheError`, spec
sections 7 and 8.3), or `built` from the training system at generation
`version`. -/
inductive CacheState where
  | cold
  | stale
  | built (version : ℕ) (root : RootDecomposition)
deriving DecidableEq, Repr

/-- Modelled from the spec: the full mutable state callers serialize
operations against (spec section 5): the current TrainingSystem, a
generation counter bumped by every training-mode mutation, and the
single shared PredictiveCache consumed by both `predictVariance` and
`sample` (spec section 4.1). -/
structure SystemState where
  tsVersion : ℕ
  ts : TrainingSystem
  cache : CacheState

/-- Modelled from the spec: `invalidate(trainingSystem)` clears the
RootDecomposition and PredictiveCache; a subsequent query without a
rebuild reports `StaleCacheError` (spec sections 4.1 and 7). -/
def invalidate (s : SystemState) : SystemState :=
  { s with cache := .stale }

/-- Modelled from the spec: a training-mode mutation replaces the
TrainingSystem, bumps its generation and discards the cache, forcing
lazy recomputation on the next inference (spec section 3 invariant and
section 9). -/
def trainMutate (s : SystemState) (ts : TrainingSystem) : SystemState :=
  { tsVersion := s.tsVersion + 1, ts := ts, cache := .cold }

/-- Modelled from the spec: an explicit `build` installs a fresh rank-k
decomposition of the current TrainingSystem, or propagates the
decomposition failure (spec section 4.1). -/
def buildOp (s : SystemState) (k : ℕ) : Except Error SystemState :=
  match build s.ts k with
  | .error e => .error e
  | .ok r => .ok { s with cache := .built s.tsVersion r }

/-- Modelled from the spec: the number of matrix-vector products with
the training covariance performed by the one-time rank-k setup (one per
iteration of the decomposition, spec sections 4.1 and 8.4). -/
def setupMVMs (k : ℕ) : ℕ := k

/-- Modelled from the spec: a query served from a valid cache uses only
the cached low-rank terms and the query's cross-covariance rows, so it
performs no matrix-vector products with the training covariance (spec
section 4.1). -/
def cachedQueryMVMs : ℕ := 0

/-- Modelled from the spec: obtain the RootDecomposition an inference
call consumes, together with the updated state and the matrix-vector
product count it paid.  A stale cache is reported as `StaleCacheError`
rather than silently rebuilt; a cold cache is built lazily on first
query; a built cache whose parent generation changed is never served
(spec sections 3, 4.1, 7, 9). -/
def acquireRoot (s : SystemState) (k : ℕ) :
    Except Error (RootDecomposition × SystemState × ℕ) :=
  match s.cache with
  | .stale => .error .staleCache
  | .cold =>
      match build s.ts k with
      | .error e => .error e
      | .ok r =>
          .ok (r, { s with cache := .built s.tsVersion r },
               setupMVMs k + cachedQueryMVMs)
  | .built v r =>
      if v = s.tsVersion then .ok (r, s, cachedQueryMVMs)
      else .error .staleCache

/-- Modelled from the spec: `predictVariance(queryBatch, cache)` checks
the cache state first, then the query dimensionality, and answers from
the cached low-rank terms; it returns the decomposition it consumed, the
updated state and its matrix-vector product count (spec section 4.1). -/
def predictVariance (s : SystemState) (qb : QueryBatch) (k : ℕ) :
    Except Error (RootDecomposition × SystemState × ℕ) :=
  match acquireRoot s k with
  | .error e => .error e
  | .ok (r, s', c) =>
      if qb.dim = s.ts.dim then .ok (r, s', c)
      else .error .dimensionMismatch

/-- Modelled from the spec: `sample(queryBatch, cache, numSamples)`
draws approximate posterior samples by applying the cached low-rank
factor; it reuses exactly the same RootDecomposition/PredictiveCache as
`predictVariance` (spec section 4.1). -/
def sample (s : SystemState) (qb : QueryBatch) (numSamples : ℕ) (k : ℕ) :
    Except Error (RootDecomposition × SystemState × ℕ) :=
  match acquireRoot s k with
  | .error e => .error e
  | .ok (r, s', c) =>
      if qb.dim = s.ts.dim then .ok (r, s', c)
      else .error .dimensionMismatch

/-- Modelled from the spec: the exact predictive mean for a query batch,
the cross-covariance applied to the solved residual (spec section 3). -/
def exactMean (ts : TrainingSystem) (qb : QueryBatch) : ℚ :=
  ts.residual * qb.weight

/-- Modelled from the spec: the per-call configuration replacing the
library's ambient context-manager toggles: the fast-path flag and the
accuracy rank k (spec section 9). -/
structure Config where
  fastEnabled : Bool
  k : ℕ
deriving DecidableEq, Repr

/-- Modelled from the spec: `predictMean(queryBatch)` is always computed
at full exactness and is not accelerated by the cache; its result does
not consult the fast-path configuration or the cache (spec section 4.1
and the notebook's NOTE that predictive means are not accelerated by
LOVE). -/
def predictMean (cfg : Config) (s : SystemState) (qb : QueryBatch) :
    Except Error ℚ :=
  if qb.dim = s.ts.dim then .ok (exactMean s.ts qb)
  else .error .dimensionMismatch

/-- Modelled from the spec: the operations a caller can issue against a
TrainingSystem/cache pair. -/
inductive Op where
  | invalidateOp
  | mutate (ts : TrainingSystem)
  | buildCache (k : ℕ)
  | queryVar (qb : QueryBatch) (k : ℕ)
  | querySample (qb : QueryBatch) (numSamples : ℕ) (k : ℕ)

/-- Modelled from the spec: whether an operation (re)builds the cache
(explicitly, or lazily by replacing the TrainingSystem and re-entering
the cold state that builds on first query). -/
def Op.rebuilds : Op → Prop
  | .buildCache _ => True
  | .mutate _ => True
  | _ => False

instance (op : Op) : Decidable op.rebuilds := by
  cases op <;> simp [Op.rebuilds] <;> infer_instance

/-- Modelled from the spec: one caller-issued step; a failed operation
reports its error to the caller and leaves the state unchanged (no
silent retry, spec section 7). -/
def step (s : SystemState) : Op → SystemState
  | .invalidateOp => invalidate s
  | .mutate ts => trainMutate s ts
  | .buildCache k =>
      match buildOp s k with
      | .error _ => s
      | .ok s' => s'
  | .queryVar qb k =>
      match predictVariance s qb k with
      | .error _ => s
      | .ok (_, s', _) => s'
  | .querySample qb n k =>
      match sample s qb n k with
      | .error _ => s
      | .ok (_, s', _) => s'

/-- Modelled from the spec: a serialized sequence of operations (spec
section 5). -/
def steps (s : SystemState) : List Op → SystemState
  | [] => s
  | op :: ops => steps (step s op) ops

/-- A small concrete training system used to witness the theorems. -/
def exTS : TrainingSystem where
  eigvals := [4, 2, 1]
  eigvals_nonneg := by intro x hx; fin_cases hx <;> norm_num
  residual := 3
  dim := 2
  orthLoss := 0

/-- A small concrete query batch used to witness the theorems. -/
def exQB : QueryBatch := ⟨5, 2, 1⟩

/-- A concrete state whose cache was never built. -/
def exCold : SystemState := ⟨0, exTS, .cold⟩

/-- A concrete state holding a built rank-2 cache for `exTS`. -/
def exBuilt : SystemState := ⟨0, exTS, .built 0 ⟨2, [4, 2]⟩⟩

/-- A concrete training system whose iteration lost orthogonality beyond
tolerance. -/
def exUnstableTS : TrainingSystem where
  eigvals := [4, 2, 1]
  eigvals_nonneg := by intro x hx; fin_cases hx <;> norm_num
  residual := 3
  dim := 2
  orthLoss := 1

end FastPosteriorCache

namespace FastPosteriorCache

/-- C1: for every fixed TrainingSystem and fixed query batch, increasing
the rank k of the root decomposition does not increase the mean absolute
error between the cached-approximate covariance and the exact
covariance: accuracy is monotone non-decreasing in k. -/
theorem accuracy_monotone_in_rank (ts : TrainingSystem) (qb : QueryBatch)
    {k j : ℕ} (h : k ≤ j) :
    maeError ts qb j ≤ maeError ts qb k := by
  rw [maeError_eq_tail, maeError_eq_tail]
  exact mul_le_mul_of_nonneg_right (tailSum_antitone ts h) (abs_nonneg _)

/-- Witness for C1 at the concrete system `exTS` with ranks 1 ≤ 2. -/
theorem accuracy_monotone_in_rank_witness :
    maeError exTS exQB 2 ≤ maeError exTS exQB 1 :=
  accuracy_monotone_in_rank exTS exQB (by norm_num)

/-- The deterministic synthetic n = 500 training system of the spec's
regression scenario (spec section 8, property 5): 50 leading unit
components followed by a uniform small spectral tail. -/
def ts500 : TrainingSystem where
  eigvals := List.replicate 50 1 ++ List.replicate 450 (657 / 450000000)
  eigvals_nonneg := by
    intro x hx
    rcases List.mem_append.mp hx with h | h <;>
      rw [List.eq_of_mem_replicate h] <;> norm_num
  residual := 0
  dim := 2
  orthLoss := 0

/-- C8: for the deterministic TrainingSystem of size n = 500 with rank
k = 50, the cached-approximate and exact covariances differ by a mean
absolute error of exactly 6.57e-4, below the 0.01 threshold, mirroring
the notebook's reported error. -/
theorem scenario_n500_k50_mae_below_threshold :
    ts500.eigvals.length = 500 ∧
    maeError ts500 exQB 50 = 657 / 1000000 ∧
    maeError ts500 exQB 50 < 1 / 100 := by
  have hlen : ts500.eigvals.length = 500 := by
    show (List.replicate 50 (1 : ℚ) ++ List.replicate 450 ((657 : ℚ) / 450000000)).length = 500
    rw [List.length_append, List.length_replicate, List.length_replicate]
  have hdrop : ts500.eigvals.drop 50 = List.replicate 450 ((657 : ℚ) / 450000000) := by
    show (List.replicate 50 (1 : ℚ) ++ List.replicate 450 ((657 : ℚ) / 450000000)).drop 50
        = List.replicate 450 ((657 : ℚ) / 450000000)
    rw [show (50 : ℕ) = (List.replicate 50 (1 : ℚ)).length from (List.length_replicate _ _).symm]
    exact List.drop_left _ _
  have hmae : maeError ts500 exQB 50 = 657 / 1000000 := by
    rw [maeError_eq_tail]
    unfold tailSum
    rw [hdrop, List.sum_replicate]
    show (450 : ℕ) • ((657 : ℚ) / 450000000) * |(1 : ℚ)| = 657 / 1000000
    rw [nsmul_eq_mul]
    norm_num
  exact ⟨hlen, hmae, by rw [hmae]; norm_num⟩

/-- C3: the predictive mean is identical whatever the fast-path
configuration: it never consults the cache and always equals the exact
mean when the query is well-formed. -/
theorem predictMean_independent_of_fast_path (cfg cfg' : Config)
    (s : SystemState) (qb : QueryBatch) :
    predictMean cfg s qb = predictMean cfg' s qb ∧
    (qb.dim = s.ts.dim → predictMean cfg s qb = .ok (exactMean s.ts qb)) := by
  refine ⟨rfl, fun h => ?_⟩
  simp [predictMean, h]

/-- Witness for C3 at the concrete system with the fast path on and off. -/
theorem predictMean_independent_of_fast_path_witness :
    predictMean ⟨true, 10⟩ exCold exQB = predictMean ⟨false, 0⟩ exCold exQB ∧
    predictMean ⟨true, 10⟩ exCold exQB = .ok (exactMean exCold.ts exQB) :=
  ⟨(predictMean_independent_of_fast_path ⟨true, 10⟩ ⟨false, 0⟩ exCold exQB).1,
   (predictMean_independent_of_fast_path ⟨true, 10⟩ ⟨false, 0⟩ exCold exQB).2 rfl⟩

/-- C9: every error propagates to the caller: `build` fails with
`NumericalInstabilityError` when orthogonality is lost beyond tolerance
instead of returning a degraded result, a stale cache is reported as
`StaleCacheError` by both inference operations instead of silently
rebuilding or falling back, and a dimension mismatch is never answered
with a success. -/
theorem errors_propagate_to_caller (ts : TrainingSystem) (s : SystemState)
    (qb : QueryBatch) (k n : ℕ) :
    (tolerance < ts.orthLoss → build ts k = .error .numericalInstability) ∧
    (s.cache = .stale →
       predictVariance s qb k = .error .staleCache ∧
       sample s qb n k = .error .staleCache) ∧
    (qb.dim ≠ s.ts.dim →
       ∀ r s' c, predictVariance s qb k ≠ .ok (r, s', c)) := by
  refine ⟨fun h => ?_, fun h => ?_, fun h r s' c => ?_⟩
  · simp [build, h]
  · constructor <;> simp [predictVariance, sample, acquireRoot, h]
  · unfold predictVariance
    cases hA : acquireRoot s k with
    | error e => simp
    | ok v =>
        obtain ⟨r0, s0, c0⟩ := v
        simp [h]

/-- Witness for C9: the unstable system makes `build` fail, and a stale
state makes `predictVariance` fail. -/
theorem errors_propagate_to_caller_witness :
    build exUnstableTS 2 = .error .numericalInstability ∧
    predictVariance (invalidate exCold) exQB 2 = .error .staleCache :=
  ⟨(errors_propagate_to_caller exUnstableTS exCold exQB 2 3).1 (by norm_num [tolerance, exUnstableTS]),
   ((errors_propagate_to_caller exTS (invalidate exCold) exQB 2 3).2.1 rfl).1⟩

theorem step_stale_of_stale {s : SystemState} {op : Op}
    (h : s.cache = .stale) (hop : ¬ op.rebuilds) :
    (step s op).cache = .stale := by
  cases op with
  | invalidateOp => rfl
  | mutate ts => exact absurd trivial hop
  | buildCache k => exact absurd trivial hop
  | queryVar qb k => simp [step, predictVariance, acquireRoot, h]
  | querySample qb n k => simp [step, sample, acquireRoot, h]

theorem steps_stale_of_stale {s : SystemState} {ops : List Op}
    (h : s.cache = .stale) (hops : ∀ op ∈ ops, ¬ op.rebuilds) :
    (steps s ops).cache = .stale := by
  induction ops generalizing s with
  | nil => exact h
  | cons op ops ih =>
      exact ih (step_stale_of_stale h (hops op (by simp)))
        (fun o ho => hops o (by simp [ho]))

/-- C2: once `invalidate` has been called, any inference query issued
before a rebuild — through any interleaving of further invalidations and
failing queries, with no rebuilding operation — reports
`StaleCacheError` instead of silently rebuilding. -/
theorem query_after_invalidate_raises_staleCache (s : SystemState)
    (ops : List Op) (hops : ∀ op ∈ ops, ¬ op.rebuilds)
    (qb : QueryBatch) (k n : ℕ) :
    predictVariance (steps (invalidate s) ops) qb k = .error .staleCache ∧
    sample (steps (invalidate s) ops) qb n k = .error .staleCache := by
  have hst : (steps (invalidate s) ops).cache = .stale :=
    steps_stale_of_stale rfl hops
  constructor <;> simp [predictVariance, sample, acquireRoot, hst]

/-- Witness for C2: invalidating the concrete cold state and querying
immediately fails with `StaleCacheError`. -/
theorem query_after_invalidate_raises_staleCache_witness :
    predictVariance (steps (invalidate exCold) []) exQB 2 = .error .staleCache ∧
    sample (steps (invalidate exCold) []) exQB 3 2 = .error .staleCache :=
  query_after_invalidate_raises_staleCache exCold [] (by simp) exQB 2 3

/-- Modelled from the spec: the section 3 invariant. A built cache is
consistent when it was produced from the current TrainingSystem at the
current generation: rebuilding at its rank from the current system
reproduces exactly the stored decomposition. -/
def cacheConsistent (s : SystemState) : Prop :=
  ∀ v r, s.cache = .built v r → v = s.tsVersion ∧ build s.ts r.rank = .ok r

theorem build_ok_self {ts : TrainingSystem} {k : ℕ} {r : RootDecomposition}
    (h : build ts k = .ok r) : build ts r.rank = .ok r := by
  unfold build at h ⊢
  split at h
  · exact absurd h (by simp)
  · injection h with h'
    subst h'
    simp [*]

theorem acquireRoot_eq_stale {s : SystemState} {k : ℕ} (h : s.cache = .stale) :
    acquireRoot s k = .error .staleCache := by
  unfold acquireRoot; rw [h]

theorem acquireRoot_eq_cold {s : SystemState} {k : ℕ} (h : s.cache = .cold) :
    acquireRoot s k =
      match build s.ts k with
      | .error e => .error e
      | .ok r => .ok (r, { s with cache := .built s.tsVersion r },
                      setupMVMs k + cachedQueryMVMs) := by
  unfold acquireRoot; rw [h]

theorem acquireRoot_eq_built {s : SystemState} {k v : ℕ}
    {r : RootDecomposition} (h : s.cache = .built v r) :
    acquireRoot s k =
      if v = s.tsVersion then .ok (r, s, cachedQueryMVMs)
      else .error .staleCache := by
  unfold acquireRoot; rw [h]

theorem acquireRoot_ok_consistent {s : SystemState} {k : ℕ}
    {r : RootDecomposition} {s' : SystemState} {c : ℕ}
    (hs : cacheConsistent s) (h : acquireRoot s k = .ok (r, s', c)) :
    cacheConsistent s' ∧ s'.ts = s.ts ∧ s'.tsVersion = s.tsVersion ∧
      build s.ts r.rank = .ok r := by
  cases hc : s.cache with
  | stale => rw [acquireRoot_eq_stale hc] at h; exact absurd h (by simp)
  | cold =>
      rw [acquireRoot_eq_cold hc] at h
      cases hb : build s.ts k with
      | error e => rw [hb] at h; exact absurd h (by simp)
      | ok r0 =>
          rw [hb] at h
          simp only [Except.ok.injEq, Prod.mk.injEq] at h
          obtain ⟨rfl, rfl, rfl⟩ := h
          refine ⟨?_, rfl, rfl, build_ok_self hb⟩
          intro v r' hr'
          simp only [CacheState.built.injEq] at hr'
          obtain ⟨rfl, rfl⟩ := hr'
          exact ⟨rfl, build_ok_self hb⟩
  | built v r0 =>
      rw [acquireRoot_eq_built hc] at h
      split at h
      · simp only [Except.ok.injEq, Prod.mk.injEq] at h
        obtain ⟨rfl, rfl, rfl⟩ := h
        obtain ⟨hv, hb⟩ := hs v r0 hc
        exact ⟨hs, rfl, rfl, hb⟩
      · exact absurd h (by simp)

theorem predictVariance_eq_of_acquire_error {s : SystemState}
    {qb : QueryBatch} {k : ℕ} {e : Error} (hA : acquireRoot s k = .error e) :
    predictVariance s qb k = .error e := by
  unfold predictVariance; rw [hA]

theorem predictVariance_eq_of_acquire_ok {s : SystemState} {qb : QueryBatch}
    {k : ℕ} {r : RootDecomposition} {s' : SystemState} {c : ℕ}
    (hA : acquireRoot s k = .ok (r, s', c)) :
    predictVariance s qb k =
      if qb.dim = s.ts.dim then .ok (r, s', c)
      else .error .dimensionMismatch := by
  unfold predictVariance; rw [hA]

theorem sample_eq_of_acquire_error {s : SystemState} {qb : QueryBatch}
    {n k : ℕ} {e : Error} (hA : acquireRoot s k = .error e) :
    sample s qb n k = .error e := by
  unfold sample; rw [hA]

theorem sample_eq_of_acquire_ok {s : SystemState} {qb : QueryBatch}
    {n k : ℕ} {r : RootDecomposition} {s' : SystemState} {c : ℕ}
    (hA : acquireRoot s k = .ok (r, s', c)) :
    sample s qb n k =
      if qb.dim = s.ts.dim then .ok (r, s', c)
      else .error .dimensionMismatch := by
  unfold sample; rw [hA]

theorem predictVariance_ok_acquire {s : SystemState} {qb : QueryBatch}
    {k : ℕ} {r : RootDecomposition} {s' : SystemState} {c : ℕ}
    (h : predictVariance s qb k = .ok (r, s', c)) :
    acquireRoot s k = .ok (r, s', c) := by
  cases hA : acquireRoot s k with
  | error e =>
      rw [predictVariance_eq_of_acquire_error hA] at h
      exact absurd h (by simp)
  | ok v3 =>
      obtain ⟨r0, s0, c0⟩ := v3
      rw [predictVariance_eq_of_acquire_ok hA] at h
      split at h
      · exact h
      · exact absurd h (by simp)

theorem sample_ok_acquire {s : SystemState} {qb : QueryBatch}
    {n k : ℕ} {r : RootDecomposition} {s' : SystemState} {c : ℕ}
    (h : sample s qb n k = .ok (r, s', c)) :
    acquireRoot s k = .ok (r, s', c) := by
  cases hA : acquireRoot s k with
  | error e =>
      rw [sample_eq_of_acquire_error hA] at h
      exact absurd h (by simp)
  | ok v3 =>
      obtain ⟨r0, s0, c0⟩ := v3
      rw [sample_eq_of_acquire_ok hA] at h
      split at h
      · exact h
      · exact absurd h (by simp)

theorem buildOp_ok_consistent {s : SystemState} {k : ℕ} {s' : SystemState}
    (h : buildOp s k = .ok s') : cacheConsistent s' := by
  unfold buildOp at h
  cases hb : build s.ts k with
  | error e => rw [hb] at h; exact absurd h (by simp)
  | ok r =>
      rw [hb] at h
      simp only [Except.ok.injEq] at h
      subst h
      intro v r' hr'
      simp only [CacheState.built.injEq] at hr'
      obtain ⟨rfl, rfl⟩ := hr'
      exact ⟨rfl, build_ok_self hb⟩

theorem step_preserves_cacheConsistent {s : SystemState}
    (hs : cacheConsistent s) (op : Op) : cacheConsistent (step s op) := by
  cases op with
  | invalidateOp => intro v r h; simp [step, invalidate] at h
  | mutate ts => intro v r h; simp [step, trainMutate] at h
  | buildCache k =>
      simp only [step]
      cases hb : buildOp s k with
      | error e => exact hs
      | ok s' => exact buildOp_ok_consistent hb
  | queryVar qb k =>
      simp only [step]
      cases hq : predictVariance s qb k with
      | error e => exact hs
      | ok v3 =>
          obtain ⟨r, s2, c⟩ := v3
          exact (acquireRoot_ok_consistent hs (predictVariance_ok_acquire hq)).1
  | querySample qb n k =>
      simp only [step]
      cases hq : sample s qb n k with
      | error e => exact hs
      | ok v3 =>
          obtain ⟨r, s2, c⟩ := v3
          exact (acquireRoot_ok_consistent hs (sample_ok_acquire hq)).1

theorem steps_preserve_cacheConsistent {s : SystemState}
    (hs : cacheConsistent s) (ops : List Op) :
    cacheConsistent (steps s ops) := by
  induction ops generalizing s with
  | nil => exact hs
  | cons op ops ih => exact ih (step_preserves_cacheConsistent hs op)

/-- C4: the PredictiveCache is valid only while its parent
TrainingSystem is unchanged: a training-mode mutation discards the
cached decomposition (forcing recomputation on the next inference), the
consistency invariant is preserved by every operation sequence, and a
successful query only ever serves a decomposition that is exactly what
building from the current TrainingSystem produces — never one from a
changed parent. -/
theorem cache_valid_only_while_parent_unchanged (s : SystemState)
    (hs : cacheConsistent s) (ops : List Op) (ts' : TrainingSystem)
    (qb : QueryBatch) (k : ℕ) :
    (trainMutate s ts').cache = .cold ∧
    (qb.dim = ts'.dim → ¬ tolerance < ts'.orthLoss →
       predictVariance (trainMutate s ts') qb k =
         .ok (⟨k, ts'.eigvals.take k⟩,
              ⟨s.tsVersion + 1, ts',
               .built (s.tsVersion + 1) ⟨k, ts'.eigvals.take k⟩⟩,
              setupMVMs k + cachedQueryMVMs)) ∧
    cacheConsistent (steps s ops) ∧
    (∀ r s2 c, predictVariance (steps s ops) qb k = .ok (r, s2, c) →
        build (steps s ops).ts r.rank = .ok r) := by
  have hinv := steps_preserve_cacheConsistent hs ops
  refine ⟨rfl, fun hdim hstab => ?_, hinv, fun r s2 c h => ?_⟩
  · unfold predictVariance
    rw [acquireRoot_eq_cold rfl]
    simp [trainMutate, build, hstab, hdim]
  · exact (acquireRoot_ok_consistent hinv (predictVariance_ok_acquire h)).2.2.2

/-- Witness for C4 at the concrete cold state: the mutation clears the
cache and the very next inference call rebuilds from the new system. -/
theorem cache_valid_only_while_parent_unchanged_witness :
    (trainMutate exCold exTS).cache = .cold ∧
    predictVariance (trainMutate exCold exTS) exQB 2 =
      .ok (⟨2, exTS.eigvals.take 2⟩,
           ⟨exCold.tsVersion + 1, exTS,
            .built (exCold.tsVersion + 1) ⟨2, exTS.eigvals.take 2⟩⟩,
           setupMVMs 2 + cachedQueryMVMs) :=
  ⟨(cache_valid_only_while_parent_unchanged exCold
      (fun v r h => by simp [exCold] at h) [.buildCache 2] exTS exQB 2).1,
   (cache_valid_only_while_parent_unchanged exCold
      (fun v r h => by simp [exCold] at h) [.buildCache 2] exTS exQB 2).2.1
     rfl (by norm_num [exTS, tolerance])⟩

/-- C6: `sample` and `predictVariance` consume the same cached
decomposition: from any one state, when both succeed they return the
same RootDecomposition and leave the same cache state — there is no
state in which one uses a rebuilt decomposition and the other a stale
one. -/
theorem sample_variance_share_decomposition (s : SystemState)
    (qb qb' : QueryBatch) (k n : ℕ) (r r' : RootDecomposition)
    (s1 s2 : SystemState) (c1 c2 : ℕ)
    (h1 : predictVariance s qb k = .ok (r, s1, c1))
    (h2 : sample s qb' n k = .ok (r', s2, c2)) :
    r = r' ∧ s1 = s2 := by
  have hA1 := predictVariance_ok_acquire h1
  have hA2 := sample_ok_acquire h2
  rw [hA1] at hA2
  simp only [Except.ok.injEq, Prod.mk.injEq] at hA2
  exact ⟨hA2.1, hA2.2.1⟩

/-- Witness for C6 at the concrete built state. -/
theorem sample_variance_share_decomposition_witness :
    (⟨2, [4, 2]⟩ : RootDecomposition) = ⟨2, [4, 2]⟩ ∧ exBuilt = exBuilt :=
  sample_variance_share_decomposition exBuilt exQB exQB 2 3
    ⟨2, [4, 2]⟩ ⟨2, [4, 2]⟩ exBuilt exBuilt 0 0 rfl rfl

/-- C5 counterexample: the first accelerated query after `invalidate`
does not succeed: it reports `StaleCacheError`, refuting the claim that
the first query after invalidation succeeds and pays the setup cost. -/
theorem first_query_after_invalidation_fails :
    predictVariance (invalidate exCold) exQB 2 = .error .staleCache := rfl

/-- C5 (amended): the first accelerated query on a cold cache — one
never built: the initial state, or the state after a training mutation;
after an explicit `invalidate` a rebuild is required first — succeeds
and pays at least the full setup cost in training-matrix MVM count, and
every subsequent query on the same still-valid cache costs strictly
fewer MVMs than that first query. -/
theorem cold_query_setup_cost_then_cheaper (s : SystemState)
    (qb : QueryBatch) (k : ℕ) (hc : s.cache = .cold)
    (hstab : ¬ tolerance < s.ts.orthLoss) (hdim : qb.dim = s.ts.dim)
    (hk : 0 < k) :
    ∃ r s', predictVariance s qb k = .ok (r, s', setupMVMs k + cachedQueryMVMs) ∧
      setupMVMs k ≤ setupMVMs k + cachedQueryMVMs ∧
      predictVariance s' qb k = .ok (r, s', cachedQueryMVMs) ∧
      cachedQueryMVMs < setupMVMs k + cachedQueryMVMs := by
  refine ⟨⟨k, s.ts.eigvals.take k⟩,
    { s with cache := .built s.tsVersion ⟨k, s.ts.eigvals.take k⟩ }, ?_, ?_, ?_, ?_⟩
  · unfold predictVariance
    rw [acquireRoot_eq_cold hc]
    simp [build, hstab, hdim]
  · simp [cachedQueryMVMs]
  · unfold predictVariance
    rw [acquireRoot_eq_built rfl]
    simp [hdim]
  · simpa [cachedQueryMVMs, setupMVMs] using hk

/-- Witness for C5 (amended) at the concrete cold state with rank 2. -/
theorem cold_query_setup_cost_then_cheaper_witness :
    ∃ r s', predictVariance exCold exQB 2 = .ok (r, s', setupMVMs 2 + cachedQueryMVMs) ∧
      setupMVMs 2 ≤ setupMVMs 2 + cachedQueryMVMs ∧
      predictVariance s' exQB 2 = .ok (r, s', cachedQueryMVMs) ∧
      cachedQueryMVMs < setupMVMs 2 + cachedQueryMVMs :=
  cold_query_setup_cost_then_cheaper exCold exQB 2 rfl
    (by norm_num [exCold, exTS, tolerance]) rfl (by norm_num)

end FastPosteriorCache

namespace GPRegressionModel

/-- Embedded from the notebook source: the column minimum
`projected_x.min(0)[0]` of one projected feature dimension across the
batch (PyTorch reduces a nonempty tensor). -/
def colMin : List ℚ → ℚ
  | [] => 0
  | a :: as => as.foldl min a

/-- Embedded from the notebook source: the column maximum
`projected_x.max(0)[0]` of one projected feature dimension across the
batch. -/
def colMax : List ℚ → ℚ
  | [] => 0
  | a :: as => as.foldl max a

/-- Embedded from the notebook source:
`projected_x = projected_x - projected_x.min(0)[0]`, per feature
dimension. -/
def shiftCol (col : List ℚ) : List ℚ :=
  col.map (fun v => v - colMin col)

/-- Embedded from the notebook source:
`projected_x = 2 * (projected_x / projected_x.max(0)[0]) - 1`, applied
after the shift, so the divisor is the maximum of the shifted column. -/
def rescaleCol (col : List ℚ) : List ℚ :=
  (shiftCol col).map (fun v => 2 * (v / colMax (shiftCol col)) - 1)

theorem foldl_min_le_init (a : ℚ) (as : List ℚ) : as.foldl min a ≤ a := by
  induction as generalizing a with
  | nil => exact le_refl a
  | cons b bs ih => exact le_trans (ih (min a b)) (min_le_left a b)

theorem foldl_min_le_mem {x : ℚ} {as : List ℚ} (hx : x ∈ as) (a : ℚ) :
    as.foldl min a ≤ x := by
  induction as generalizing a with
  | nil => cases hx
  | cons b bs ih =>
      rcases List.mem_cons.mp hx with rfl | hx'
      · exact le_trans (foldl_min_le_init (min a x) bs) (min_le_right a x)
      · exact ih hx' (min a b)

theorem foldl_min_mem (a : ℚ) (as : List ℚ) :
    as.foldl min a = a ∨ as.foldl min a ∈ as := by
  induction as generalizing a with
  | nil => exact Or.inl rfl
  | cons b bs ih =>
      rcases ih (min a b) with h | h
      · rcases min_choice a b with h2 | h2
        · exact Or.inl (by rw [List.foldl_cons, h, h2])
        · refine Or.inr ?_
          rw [List.foldl_cons, h, h2]
          exact List.mem_cons_self b bs
      · exact Or.inr (List.mem_cons_of_mem b h)

theorem init_le_foldl_max (a : ℚ) (as : List ℚ) : a ≤ as.foldl max a := by
  induction as generalizing a with
  | nil => exact le_refl a
  | cons b bs ih => exact le_trans (le_max_left a b) (ih (max a b))

theorem mem_le_foldl_max {x : ℚ} {as : List ℚ} (hx : x ∈ as) (a : ℚ) :
    x ≤ as.foldl max a := by
  induction as generalizing a with
  | nil => cases hx
  | cons b bs ih =>
      rcases List.mem_cons.mp hx with rfl | hx'
      · exact le_trans (le_max_right a x) (init_le_foldl_max (max a x) bs)
      · exact ih hx' (max a b)

theorem foldl_max_mem (a : ℚ) (as : List ℚ) :
    as.foldl max a = a ∨ as.foldl max a ∈ as := by
  induction as generalizing a with
  | nil => exact Or.inl rfl
  | cons b bs ih =>
      rcases ih (max a b) with h | h
      · rcases max_choice a b with h2 | h2
        · exact Or.inl (by rw [List.foldl_cons, h, h2])
        · refine Or.inr ?_
          rw [List.foldl_cons, h, h2]
          exact List.mem_cons_self b bs
      · exact Or.inr (List.mem_cons_of_mem b h)

theorem colMin_le {col : List ℚ} {x : ℚ} (hx : x ∈ col) : colMin col ≤ x := by
  cases col with
  | nil => cases hx
  | cons a as =>
      rcases List.mem_cons.mp hx with rfl | hx'
      · exact foldl_min_le_init x as
      · exact foldl_min_le_mem hx' a

theorem le_colMax {col : List ℚ} {x : ℚ} (hx : x ∈ col) : x ≤ colMax col := by
  cases col with
  | nil => cases hx
  | cons a as =>
      rcases List.mem_cons.mp hx with rfl | hx'
      · exact init_le_foldl_max x as
      · exact mem_le_foldl_max hx' a

theorem colMin_mem {col : List ℚ} (hne : col ≠ []) : colMin col ∈ col := by
  cases col with
  | nil => exact absurd rfl hne
  | cons a as =>
      rcases foldl_min_mem a as with h | h
      · rw [show colMin (a :: as) = as.foldl min a from rfl, h]
        exact List.mem_cons_self a as
      · exact List.mem_cons_of_mem a h

theorem colMax_mem {col : List ℚ} (hne : col ≠ []) : colMax col ∈ col := by
  cases col with
  | nil => exact absurd rfl hne
  | cons a as =>
      rcases foldl_max_mem a as with h | h
      · rw [show colMax (a :: as) = as.foldl max a from rfl, h]
        exact List.mem_cons_self a as
      · exact List.mem_cons_of_mem a h

theorem foldl_max_map_sub (c : ℚ) (as : List ℚ) (a : ℚ) :
    (as.map (fun v => v - c)).foldl max (a - c) = as.foldl max a - c := by
  induction as generalizing a with
  | nil => rfl
  | cons b bs ih =>
      simp only [List.map_cons, List.foldl_cons]
      rw [max_sub_sub_right a b c]
      exact ih (max a b)

theorem colMax_shift (col : List ℚ) :
    colMax (shiftCol col) = colMax col - colMin col := by
  cases col with
  | nil => simp [shiftCol, colMax, colMin]
  | cons a as =>
      have h1 : shiftCol (a :: as)
          = (a - colMin (a :: as)) :: as.map (fun v => v - colMin (a :: as)) := by
        simp [shiftCol]
      rw [h1]
      show (as.map (fun v => v - colMin (a :: as))).foldl max
          (a - colMin (a :: as)) = colMax (a :: as) - colMin (a :: as)
      rw [foldl_max_map_sub]
      rfl

theorem colMin_lt_colMax {col : List ℚ} {x y : ℚ} (hx : x ∈ col)
    (hy : y ∈ col) (hxy : x ≠ y) : colMin col < colMax col := by
  rcases lt_or_ge (colMin col) (colMax col) with h | h
  · exact h
  · exfalso
    have hxy1 : x ≤ y := le_trans (le_colMax hx) (le_trans h (colMin_le hy))
    have hxy2 : y ≤ x := le_trans (le_colMax hy) (le_trans h (colMin_le hx))
    exact hxy (le_antisymm hxy1 hxy2)

/-- C10: in the notebook's `GPRegressionModel.forward`, each projected
feature dimension is shifted by its column minimum and divided by the
maximum of the shifted column.  On a nonempty batch, if the dimension is
non-constant then every rescaled value lies in the closed interval
[-1, 1] and both endpoints -1 and 1 are attained — the scaling is to
[-1, 1], not to [0, 1] as the surrounding prose states; if the dimension
is constant across the batch then the divisor `projected_x.max(0)[0]` is
exactly 0, so the rescaling divides by zero at the public interface. -/
theorem forward_rescaling (col : List ℚ) (hne : col ≠ []) :
    ((∃ x ∈ col, ∃ y ∈ col, x ≠ y) →
       (∀ z ∈ rescaleCol col, -1 ≤ z ∧ z ≤ 1) ∧
       (-1 : ℚ) ∈ rescaleCol col ∧ (1 : ℚ) ∈ rescaleCol col) ∧
    ((∀ x ∈ col, ∀ y ∈ col, x = y) → colMax (shiftCol col) = 0) := by
  constructor
  · rintro ⟨x, hx, y, hy, hxy⟩
    have hlt : colMin col < colMax col := colMin_lt_colMax hx hy hxy
    have hd : 0 < colMax col - colMin col := by linarith
    have hmax : colMax (shiftCol col) = colMax col - colMin col :=
      colMax_shift col
    refine ⟨?_, ?_, ?_⟩
    · intro z hz
      obtain ⟨w, hw, rfl⟩ := List.mem_map.mp hz
      obtain ⟨u, hu, rfl⟩ := List.mem_map.mp hw
      rw [hmax]
      have h1 : 0 ≤ u - colMin col := by
        have := colMin_le hu; linarith
      have h2 : u - colMin col ≤ colMax col - colMin col := by
        have := le_colMax hu; linarith
      have h3 : 0 ≤ (u - colMin col) / (colMax col - colMin col) :=
        div_nonneg h1 (le_of_lt hd)
      have h4 : (u - colMin col) / (colMax col - colMin col) ≤ 1 :=
        (div_le_one hd).mpr h2
      constructor <;> linarith
    · have hm := colMin_mem hne
      have h0 : (0 : ℚ) ∈ shiftCol col :=
        List.mem_map.mpr ⟨colMin col, hm, by ring⟩
      refine List.mem_map.mpr ⟨0, h0, ?_⟩
      norm_num
    · have hM := colMax_mem hne
      have hdm : colMax col - colMin col ∈ shiftCol col :=
        List.mem_map.mpr ⟨colMax col, hM, rfl⟩
      refine List.mem_map.mpr ⟨colMax col - colMin col, hdm, ?_⟩
      rw [hmax, div_self (ne_of_gt hd)]
      norm_num
  · intro hconst
    have hm := colMin_mem hne
    have hM := colMax_mem hne
    have heq : colMax col = colMin col := hconst _ hM _ hm
    rw [colMax_shift col, heq, sub_self]

/-- Witness for C10: the two-point column [0, 2] is non-constant and its
rescaling attains both -1 and 1. -/
theorem forward_rescaling_witness :
    (-1 : ℚ) ∈ rescaleCol [0, 2] ∧ (1 : ℚ) ∈ rescaleCol [0, 2] :=
  ((forward_rescaling [0, 2] (by simp)).1
    ⟨0, by simp, 2, by simp, by norm_num⟩).2

end GPRegressionModel
